import Mathlib

/-!
# Verification of the FreeCoinPrice MCP tool server (`src/index.ts`)

Shallow embedding of the per-request MCP session, the four registered tools
(`hello`, `getSupportedCurrencies`, `getCoinPrice`, `getPublicCompaniesHoldings`),
their zod argument validation, the outgoing CoinGecko request construction, the
success/failure content envelopes, and the session teardown handler.

JSON values are modelled by the inductive `Json` below (numbers as integers);
`Json.stringify` models `JSON.stringify` on such values and `Json.parse` is an
executable parser used to state "the text block is valid JSON" and the
serialization round-trip.
-/

/-- JSON values as produced/consumed by the server. Numbers are modelled as
integers (`JSON.stringify` output for integral numbers); object fields keep
insertion order, as JavaScript objects and `JSON.stringify` do. -/
inductive Json where
  | null : Json
  | bool : Bool → Json
  | num : Int → Json
  | str : String → Json
  | arr : List Json → Json
  | obj : List (String × Json) → Json

/-- Character used for a decimal digit `d < 10`. -/
def digitChar (d : Nat) : Char := Char.ofNat (48 + d)

/-- Decimal digits of a natural number, most significant first
(`JSON.stringify` format: no leading zeros, `0` printed as `"0"`). -/
def natToChars (n : Nat) : List Char :=
  if _h : n < 10 then [digitChar n]
  else natToChars (n / 10) ++ [digitChar (n % 10)]
  termination_by n
  decreasing_by
    exact Nat.div_lt_self (by omega) (by omega)

/-- Decimal representation of an integer, as `JSON.stringify` prints it. -/
def intToChars : Int → List Char
  | Int.ofNat n => natToChars n
  | Int.negSucc n => '-' :: natToChars (n + 1)

/-- String-literal escaping as performed by `JSON.stringify`: quote and
backslash are escaped with a backslash. -/
def escapeChar (c : Char) : List Char :=
  if c = '"' ∨ c = '\\' then ['\\', c] else [c]

/-- Escape every character of a string body. -/
def escapeChars : List Char → List Char
  | [] => []
  | c :: cs => escapeChar c ++ escapeChars cs

mutual

/-- Characters of the `JSON.stringify` serialization of a `Json` value. -/
def jsonToChars : Json → List Char
  | .null => ['n', 'u', 'l', 'l']
  | .bool b => if b then ['t', 'r', 'u', 'e'] else ['f', 'a', 'l', 's', 'e']
  | .num n => intToChars n
  | .str s => '"' :: (escapeChars s.data ++ ['"'])
  | .arr xs => '[' :: (arrToChars xs ++ [']'])
  | .obj fs => '{' :: (objToChars fs ++ ['}'])

/-- Comma-separated serializations of array elements. -/
def arrToChars : List Json → List Char
  | [] => []
  | [x] => jsonToChars x
  | x :: y :: xs => jsonToChars x ++ ',' :: arrToChars (y :: xs)

/-- Comma-separated serializations of object fields. -/
def objToChars : List (String × Json) → List Char
  | [] => []
  | [(k, v)] => fieldToChars k v
  | (k, v) :: f :: fs => fieldToChars k v ++ ',' :: objToChars (f :: fs)

/-- Serialization of a single `"key":value` object field. -/
def fieldToChars (k : String) (v : Json) : List Char :=
  '"' :: (escapeChars k.data ++ '"' :: ':' :: jsonToChars v)

end

/-- `JSON.stringify` on modelled JSON values. -/
def Json.stringify (j : Json) : String := String.mk (jsonToChars j)

mutual

/-- Parse the body of a JSON string literal (after the opening quote), up to and
including the closing quote. A backslash takes the following character
literally, which inverts `escapeChars` on everything `Json.stringify` emits. -/
def parseStrBody : List Char → Option (List Char × List Char)
  | [] => none
  | c :: rest =>
    if c = '"' then some ([], rest)
    else if c = '\\' then parseStrEsc rest
    else
      match parseStrBody rest with
      | some (s, r) => some (c :: s, r)
      | none => none

/-- Continuation of `parseStrBody` right after a backslash: the next character
is taken literally. -/
def parseStrEsc : List Char → Option (List Char × List Char)
  | [] => none
  | c :: rest =>
    match parseStrBody rest with
    | some (s, r) => some (c :: s, r)
    | none => none

end

/-- Numeric value of a decimal digit character. -/
def digitVal (c : Char) : Nat := c.toNat - 48

/-- Consume a maximal run of decimal digits, folding them onto `acc`. -/
def parseDigits : List Char → Nat → Nat × List Char
  | [], acc => (acc, [])
  | c :: cs, acc =>
    if c.isDigit then parseDigits cs (acc * 10 + digitVal c) else (acc, c :: cs)

/-- Parse a nonempty run of decimal digits into a natural number. -/
def parseNatNum : List Char → Option (Nat × List Char)
  | [] => none
  | c :: cs => if c.isDigit then some (parseDigits cs (digitVal c)) else none

mutual

/-- Fueled recursive-descent parser for the `Json` grammar, accepting exactly
the canonical output of `jsonToChars` (no whitespace skipping). Fuel only
gates recursion depth; it is decremented on every nested call. -/
def parseJ : Nat → List Char → Option (Json × List Char)
  | 0, _ => none
  | _ + 1, [] => none
  | fuel + 1, c :: cs =>
    if c = 'n' then
      match cs with
      | 'u' :: 'l' :: 'l' :: rest => some (.null, rest)
      | _ => none
    else if c = 't' then
      match cs with
      | 'r' :: 'u' :: 'e' :: rest => some (.bool true, rest)
      | _ => none
    else if c = 'f' then
      match cs with
      | 'a' :: 'l' :: 's' :: 'e' :: rest => some (.bool false, rest)
      | _ => none
    else if c = '"' then
      match parseStrBody cs with
      | some (s, rest) => some (.str (String.mk s), rest)
      | none => none
    else if c = '[' then
      if cs.head? = some ']' then some (.arr [], cs.tail)
      else
        match parseArrBody fuel cs with
        | some (xs, rest) => some (.arr xs, rest)
        | none => none
    else if c = '{' then
      if cs.head? = some '}' then some (.obj [], cs.tail)
      else
        match parseObjBody fuel cs with
        | some (fs, rest) => some (.obj fs, rest)
        | none => none
    else if c = '-' then
      match parseNatNum cs with
      | some (n, rest) => some (.num (-(n : Int)), rest)
      | none => none
    else
      match parseNatNum (c :: cs) with
      | some (n, rest) => some (.num (n : Int), rest)
      | none => none

/-- Parse one or more comma-separated array elements followed by `]`. -/
def parseArrBody : Nat → List Char → Option (List Json × List Char)
  | 0, _ => none
  | fuel + 1, cs =>
    match parseJ fuel cs with
    | some (x, rest) =>
      match rest with
      | ',' :: rest2 =>
        match parseArrBody fuel rest2 with
        | some (xs, rest3) => some (x :: xs, rest3)
        | none => none
      | ']' :: rest2 => some ([x], rest2)
      | _ => none
    | none => none

/-- Parse one or more comma-separated `"key":value` fields followed by `}`. -/
def parseObjBody : Nat → List Char → Option (List (String × Json) × List Char)
  | 0, _ => none
  | fuel + 1, cs =>
    match cs with
    | '"' :: rest =>
      match parseStrBody rest with
      | some (k, rest2) =>
        match rest2 with
        | ':' :: rest3 =>
          match parseJ fuel rest3 with
          | some (v, rest4) =>
            match rest4 with
            | ',' :: rest5 =>
              match parseObjBody fuel rest5 with
              | some (fs, rest6) => some ((String.mk k, v) :: fs, rest6)
              | none => none
            | '}' :: rest5 => some ([(String.mk k, v)], rest5)
            | _ => none
          | none => none
        | _ => none
      | none => none
    | _ => none

end

/-- `JSON.parse` on the modelled grammar: succeeds exactly when the whole
string is a serialized `Json` value. The fuel `2 * length + 2` is enough for
any value whose serialization fits in the input (`jsize_le_length` below). -/
def Json.parse (s : String) : Option Json :=
  match parseJ (2 * s.data.length + 2) s.data with
  | some (j, []) => some j
  | _ => none

/-! ## Round-trip: helper lemmas for numbers -/

/-- Folding decimal digits onto an accumulator, the specification of what
`parseDigits` computes on a run of digits. -/
def digitsFold : Nat → List Char → Nat
  | acc, [] => acc
  | acc, c :: cs => digitsFold (acc * 10 + digitVal c) cs

/-- The continuation after a token must not start with a digit, or the digit
run of a preceding number token would absorb it. -/
def headOk : List Char → Prop
  | [] => True
  | c :: _ => c.isDigit = false

theorem digitsFold_nil (acc : Nat) : digitsFold acc [] = acc := rfl

theorem digitsFold_cons (acc : Nat) (c : Char) (cs : List Char) :
    digitsFold acc (c :: cs) = digitsFold (acc * 10 + digitVal c) cs := rfl

theorem parseDigits_nil (acc : Nat) : parseDigits [] acc = (acc, []) := rfl

theorem parseDigits_cons (c : Char) (cs : List Char) (acc : Nat) :
    parseDigits (c :: cs) acc =
      if c.isDigit then parseDigits cs (acc * 10 + digitVal c) else (acc, c :: cs) := rfl

theorem headOk_nil : headOk [] := trivial

theorem headOk_cons (c : Char) (cs : List Char) (h : c.isDigit = false) :
    headOk (c :: cs) := h

theorem headOk_head (c : Char) (cs : List Char) (h : headOk (c :: cs)) :
    c.isDigit = false := h

theorem digitChar_isDigit : ∀ d, d < 10 → (digitChar d).isDigit = true := by decide

theorem digitVal_digitChar : ∀ d, d < 10 → digitVal (digitChar d) = d := by decide

theorem parseDigits_append (ds : List Char) (acc : Nat) (rest : List Char)
    (hds : ∀ c ∈ ds, c.isDigit = true) (hrest : headOk rest) :
    parseDigits (ds ++ rest) acc = (digitsFold acc ds, rest) := by
  induction ds generalizing acc with
  | nil =>
    cases rest with
    | nil => rfl
    | cons c cs =>
      rw [List.nil_append, parseDigits_cons, digitsFold_nil, if_neg]
      simp [headOk_head c cs hrest]
  | cons c ds ih =>
    have hc : c.isDigit = true := hds c (List.mem_cons_self c ds)
    rw [List.cons_append, parseDigits_cons, digitsFold_cons, if_pos (by simp [hc])]
    exact ih _ fun x hx => hds x (List.mem_cons_of_mem c hx)

theorem natToChars_eq (n : Nat) :
    natToChars n =
      if n < 10 then [digitChar n] else natToChars (n / 10) ++ [digitChar (n % 10)] := by
  rw [natToChars]
  split <;> simp_all

theorem natToChars_digits (n : Nat) : ∀ c ∈ natToChars n, c.isDigit = true := by
  induction n using Nat.strong_induction_on with
  | _ n ih =>
    rw [natToChars_eq]
    split
    case isTrue h =>
      intro c hc
      simp only [List.mem_singleton] at hc
      subst hc
      exact digitChar_isDigit n h
    case isFalse h =>
      intro c hc
      rcases List.mem_append.mp hc with h1 | h2
      · exact ih (n / 10) (Nat.div_lt_self (by omega) (by omega)) c h1
      · simp only [List.mem_singleton] at h2
        subst h2
        exact digitChar_isDigit _ (Nat.mod_lt n (by omega))

theorem natToChars_ne_nil (n : Nat) : natToChars n ≠ [] := by
  rw [natToChars_eq]
  split <;> simp

theorem digitsFold_append_single (a : Nat) (ds : List Char) (d : Char) :
    digitsFold a (ds ++ [d]) = (digitsFold a ds) * 10 + digitVal d := by
  induction ds generalizing a with
  | nil => rfl
  | cons x xs ihx => rw [List.cons_append, digitsFold_cons, digitsFold_cons, ihx]

theorem digitsFold_natToChars (n : Nat) :
    ∀ acc, digitsFold acc (natToChars n) = acc * 10 ^ (natToChars n).length + n := by
  induction n using Nat.strong_induction_on with
  | _ n ih =>
    intro acc
    rw [natToChars_eq]
    split
    case isTrue h =>
      rw [digitsFold_cons, digitsFold_nil, digitVal_digitChar n h]
      simp
    case isFalse h =>
      have hdiv : n / 10 < n := Nat.div_lt_self (by omega) (by omega)
      rw [digitsFold_append_single, ih (n / 10) hdiv acc,
        digitVal_digitChar _ (Nat.mod_lt n (by omega))]
      simp only [List.length_append, List.length_singleton]
      have h10 : n / 10 * 10 + n % 10 = n := by omega
      calc (acc * 10 ^ (natToChars (n / 10)).length + n / 10) * 10 + n % 10
          = acc * (10 ^ (natToChars (n / 10)).length * 10) + (n / 10 * 10 + n % 10) := by
            ring
        _ = acc * 10 ^ ((natToChars (n / 10)).length + 1) + n := by rw [h10, pow_succ]

theorem parseNatNum_cons (c : Char) (cs : List Char) :
    parseNatNum (c :: cs) =
      if c.isDigit then some (parseDigits cs (digitVal c)) else none := rfl

theorem parseNatNum_natToChars (n : Nat) (rest : List Char) (hrest : headOk rest) :
    parseNatNum (natToChars n ++ rest) = some (n, rest) := by
  rcases hcs : natToChars n with _ | ⟨c, cs⟩
  · exact absurd hcs (natToChars_ne_nil n)
  · have hall := natToChars_digits n
    rw [hcs] at hall
    have hc : c.isDigit = true := hall c (List.mem_cons_self c cs)
    rw [List.cons_append, parseNatNum_cons, if_pos (by simp [hc])]
    have hrun : parseDigits (cs ++ rest) (digitVal c) = (digitsFold (digitVal c) cs, rest) :=
      parseDigits_append cs (digitVal c) rest
        (fun x hx => hall x (List.mem_cons_of_mem c hx)) hrest
    rw [hrun]
    have hfold : digitsFold 0 (natToChars n) = n := by
      rw [digitsFold_natToChars n 0]; omega
    rw [hcs, digitsFold_cons] at hfold
    rw [Nat.zero_mul, Nat.zero_add] at hfold
    rw [hfold]

/-! ## Round-trip: helper lemmas for string literals -/

theorem escapeChars_nil : escapeChars [] = [] := rfl

theorem escapeChars_cons (c : Char) (cs : List Char) :
    escapeChars (c :: cs) = escapeChar c ++ escapeChars cs := rfl

theorem parseStrBody_nil : parseStrBody [] = none := rfl

theorem parseStrBody_cons (c : Char) (rest : List Char) :
    parseStrBody (c :: rest) =
      if c = '"' then some ([], rest)
      else if c = '\\' then parseStrEsc rest
      else
        match parseStrBody rest with
        | some (s, r) => some (c :: s, r)
        | none => none := rfl

theorem parseStrEsc_cons (c : Char) (rest : List Char) :
    parseStrEsc (c :: rest) =
      match parseStrBody rest with
      | some (s, r) => some (c :: s, r)
      | none => none := rfl

theorem parseStrBody_escape (cs rest : List Char) :
    parseStrBody (escapeChars cs ++ '"' :: rest) = some (cs, rest) := by
  induction cs with
  | nil => rfl
  | cons c cs ih =>
    rw [escapeChars_cons]
    by_cases hq : c = '"' ∨ c = '\\'
    · have he : escapeChar c = ['\\', c] := by simp [escapeChar, hq]
      rw [he]
      simp only [List.cons_append, List.nil_append, parseStrBody_cons, parseStrEsc_cons]
      simp [ih]
    · have he : escapeChar c = [c] := by simp [escapeChar, hq]
      push_neg at hq
      rw [he]
      simp only [List.cons_append, List.nil_append, parseStrBody_cons]
      simp [hq.1, hq.2, ih]

/-! ## Round-trip: sizes and serializer equations -/

mutual

/-- Fuel needed by `parseJ` to parse a serialized value. -/
def jsize : Json → Nat
  | .null => 1
  | .bool _ => 1
  | .num _ => 1
  | .str _ => 1
  | .arr xs => 1 + asize xs
  | .obj fs => 1 + osize fs

/-- Fuel needed by `parseArrBody` for serialized array elements. -/
def asize : List Json → Nat
  | [] => 1
  | x :: xs => 1 + jsize x + asize xs

/-- Fuel needed by `parseObjBody` for serialized object fields. -/
def osize : List (String × Json) → Nat
  | [] => 1
  | (_, v) :: fs => 1 + jsize v + osize fs

end

theorem jsize_null : jsize .null = 1 := by rw [jsize]

theorem jsize_bool (b : Bool) : jsize (.bool b) = 1 := by rw [jsize]

theorem jsize_num (k : Int) : jsize (.num k) = 1 := by rw [jsize]

theorem jsize_str (s : String) : jsize (.str s) = 1 := by rw [jsize]

theorem jsize_arr (xs : List Json) : jsize (.arr xs) = 1 + asize xs := by rw [jsize]

theorem jsize_obj (fs : List (String × Json)) : jsize (.obj fs) = 1 + osize fs := by
  rw [jsize]

theorem asize_nil : asize [] = 1 := by rw [asize]

theorem asize_cons (x : Json) (xs : List Json) :
    asize (x :: xs) = 1 + jsize x + asize xs := by rw [asize]

theorem osize_nil : osize [] = 1 := by rw [osize]

theorem osize_cons (k : String) (v : Json) (fs : List (String × Json)) :
    osize ((k, v) :: fs) = 1 + jsize v + osize fs := by rw [osize]

theorem jsize_pos (j : Json) : 1 ≤ jsize j := by
  cases j with
  | null => rw [jsize_null]
  | bool b => rw [jsize_bool]
  | num k => rw [jsize_num]
  | str s => rw [jsize_str]
  | arr xs => rw [jsize_arr]; omega
  | obj fs => rw [jsize_obj]; omega

theorem asize_pos (xs : List Json) : 1 ≤ asize xs := by
  cases xs with
  | nil => rw [asize_nil]
  | cons x xs => rw [asize_cons]; omega

theorem osize_pos (fs : List (String × Json)) : 1 ≤ osize fs := by
  cases fs with
  | nil => rw [osize_nil]
  | cons f fs => rcases f with ⟨k, v⟩; rw [osize_cons]; omega

theorem jsonToChars_null : jsonToChars .null = ['n', 'u', 'l', 'l'] := by
  rw [jsonToChars]

theorem jsonToChars_true : jsonToChars (.bool true) = ['t', 'r', 'u', 'e'] := by
  rw [jsonToChars]; rfl

theorem jsonToChars_false : jsonToChars (.bool false) = ['f', 'a', 'l', 's', 'e'] := by
  rw [jsonToChars]; rfl

theorem jsonToChars_num (k : Int) : jsonToChars (.num k) = intToChars k := by
  rw [jsonToChars]

theorem jsonToChars_str (s : String) :
    jsonToChars (.str s) = '"' :: (escapeChars s.data ++ ['"']) := by
  rw [jsonToChars]

theorem jsonToChars_arr (xs : List Json) :
    jsonToChars (.arr xs) = '[' :: (arrToChars xs ++ [']']) := by
  rw [jsonToChars]

theorem jsonToChars_obj (fs : List (String × Json)) :
    jsonToChars (.obj fs) = '{' :: (objToChars fs ++ ['}']) := by
  rw [jsonToChars]

theorem arrToChars_nil : arrToChars [] = [] := by rw [arrToChars]

theorem arrToChars_one (x : Json) : arrToChars [x] = jsonToChars x := by rw [arrToChars]

theorem arrToChars_cons2 (x y : Json) (xs : List Json) :
    arrToChars (x :: y :: xs) = jsonToChars x ++ ',' :: arrToChars (y :: xs) := by
  rw [arrToChars]

theorem fieldToChars_eq (k : String) (v : Json) :
    fieldToChars k v = '"' :: (escapeChars k.data ++ '"' :: ':' :: jsonToChars v) := by
  rw [fieldToChars]

theorem objToChars_nil : objToChars [] = [] := by rw [objToChars]

theorem objToChars_one (k : String) (v : Json) :
    objToChars [(k, v)] = fieldToChars k v := by rw [objToChars]

theorem objToChars_cons2 (k : String) (v : Json) (f : String × Json)
    (fs : List (String × Json)) :
    objToChars ((k, v) :: f :: fs) = fieldToChars k v ++ ',' :: objToChars (f :: fs) := by
  rw [objToChars]

theorem isDigit_not_special (c : Char) (h : c.isDigit = true) :
    c ≠ 'n' ∧ c ≠ 't' ∧ c ≠ 'f' ∧ c ≠ '"' ∧ c ≠ '[' ∧ c ≠ '{' ∧ c ≠ '-' ∧
      c ≠ ']' ∧ c ≠ '}' := by
  refine ⟨?_, ?_, ?_, ?_, ?_, ?_, ?_, ?_, ?_⟩ <;>
    first
    | exact fun he => absurd h (by rw [he]; decide)

theorem jsonToChars_head (j : Json) :
    ∃ c cs, jsonToChars j = c :: cs ∧ c ≠ ']' ∧ c ≠ '}' := by
  cases j with
  | null => exact ⟨'n', _, jsonToChars_null, by decide, by decide⟩
  | bool b =>
    cases b with
    | true => exact ⟨'t', _, jsonToChars_true, by decide, by decide⟩
    | false => exact ⟨'f', _, jsonToChars_false, by decide, by decide⟩
  | num k =>
    cases k with
    | ofNat n =>
      rcases hcs : natToChars n with _ | ⟨c, cs⟩
      · exact absurd hcs (natToChars_ne_nil n)
      · have hc : c.isDigit = true := by
          have := natToChars_digits n
          rw [hcs] at this
          exact this c (List.mem_cons_self c cs)
        have hne := isDigit_not_special c hc
        exact ⟨c, cs, by rw [jsonToChars_num]; exact hcs, hne.2.2.2.2.2.2.2.1,
          hne.2.2.2.2.2.2.2.2⟩
    | negSucc m =>
      exact ⟨'-', _, by rw [jsonToChars_num]; rfl, by decide, by decide⟩
  | str s => exact ⟨'"', _, jsonToChars_str s, by decide, by decide⟩
  | arr xs => exact ⟨'[', _, jsonToChars_arr xs, by decide, by decide⟩
  | obj fs => exact ⟨'{', _, jsonToChars_obj fs, by decide, by decide⟩

theorem arrToChars_head (x : Json) (xs : List Json) :
    ∃ c cs, arrToChars (x :: xs) = c :: cs ∧ c ≠ ']' := by
  obtain ⟨c, cs, hx, hc1, _⟩ := jsonToChars_head x
  cases xs with
  | nil => exact ⟨c, cs, by rw [arrToChars_one, hx], hc1⟩
  | cons y ys =>
    exact ⟨c, cs ++ ',' :: arrToChars (y :: ys),
      by rw [arrToChars_cons2, hx, List.cons_append], hc1⟩

theorem objToChars_head (f : String × Json) (fs : List (String × Json)) :
    ∃ cs, objToChars (f :: fs) = '"' :: cs := by
  rcases f with ⟨k, v⟩
  cases fs with
  | nil =>
    exact ⟨_, by rw [objToChars_one, fieldToChars_eq]⟩
  | cons f2 fs2 =>
    refine ⟨escapeChars k.data ++ '"' :: ':' :: jsonToChars v ++
      ',' :: objToChars (f2 :: fs2), ?_⟩
    rw [objToChars_cons2, fieldToChars_eq, List.cons_append]

/-! ## Round-trip: parser equations -/

theorem parseJ_zero (cs : List Char) : parseJ 0 cs = none := rfl

theorem parseJ_succ_nil (fuel : Nat) : parseJ (fuel + 1) [] = none := rfl

theorem parseJ_succ_cons (fuel : Nat) (c : Char) (cs : List Char) :
    parseJ (fuel + 1) (c :: cs) =
      (if c = 'n' then
        match cs with
        | 'u' :: 'l' :: 'l' :: rest => some (.null, rest)
        | _ => none
      else if c = 't' then
        match cs with
        | 'r' :: 'u' :: 'e' :: rest => some (.bool true, rest)
        | _ => none
      else if c = 'f' then
        match cs with
        | 'a' :: 'l' :: 's' :: 'e' :: rest => some (.bool false, rest)
        | _ => none
      else if c = '"' then
        match parseStrBody cs with
        | some (s, rest) => some (.str (String.mk s), rest)
        | none => none
      else if c = '[' then
        if cs.head? = some ']' then some (.arr [], cs.tail)
        else
          match parseArrBody fuel cs with
          | some (xs, rest) => some (.arr xs, rest)
          | none => none
      else if c = '{' then
        if cs.head? = some '}' then some (.obj [], cs.tail)
        else
          match parseObjBody fuel cs with
          | some (fs, rest) => some (.obj fs, rest)
          | none => none
      else if c = '-' then
        match parseNatNum cs with
        | some (n, rest) => some (.num (-(n : Int)), rest)
        | none => none
      else
        match parseNatNum (c :: cs) with
        | some (n, rest) => some (.num (n : Int), rest)
        | none => none) := rfl

theorem parseArrBody_succ (fuel : Nat) (cs : List Char) :
    parseArrBody (fuel + 1) cs =
      (match parseJ fuel cs with
      | some (x, rest) =>
        match rest with
        | ',' :: rest2 =>
          match parseArrBody fuel rest2 with
          | some (xs, rest3) => some (x :: xs, rest3)
          | none => none
        | ']' :: rest2 => some ([x], rest2)
        | _ => none
      | none => none) := rfl

theorem parseObjBody_succ_quote (fuel : Nat) (rest : List Char) :
    parseObjBody (fuel + 1) ('"' :: rest) =
      (match parseStrBody rest with
      | some (k, rest2) =>
        match rest2 with
        | ':' :: rest3 =>
          match parseJ fuel rest3 with
          | some (v, rest4) =>
            match rest4 with
            | ',' :: rest5 =>
              match parseObjBody fuel rest5 with
              | some (fs, rest6) => some ((String.mk k, v) :: fs, rest6)
              | none => none
            | '}' :: rest5 => some ([(String.mk k, v)], rest5)
            | _ => none
          | none => none
        | _ => none
      | none => none) := rfl

/-! ## Round-trip: main theorem -/

theorem intToChars_ofNat (n : Nat) : intToChars (Int.ofNat n) = natToChars n := rfl

theorem intToChars_negSucc (m : Nat) :
    intToChars (Int.negSucc m) = '-' :: natToChars (m + 1) := rfl

theorem stringMk_data (s : String) : String.mk s.data = s := rfl

theorem headOk_comma (cs : List Char) : headOk (',' :: cs) := headOk_cons _ _ (by decide)

theorem headOk_rbracket (cs : List Char) : headOk (']' :: cs) := headOk_cons _ _ (by decide)

theorem headOk_rbrace (cs : List Char) : headOk ('}' :: cs) := headOk_cons _ _ (by decide)

theorem parse_roundtrip_fuel : ∀ fuel : Nat,
    (∀ j rest, headOk rest → jsize j ≤ fuel →
      parseJ fuel (jsonToChars j ++ rest) = some (j, rest)) ∧
    (∀ xs rest, xs ≠ [] → asize xs ≤ fuel →
      parseArrBody fuel (arrToChars xs ++ ']' :: rest) = some (xs, rest)) ∧
    (∀ fs rest, fs ≠ [] → osize fs ≤ fuel →
      parseObjBody fuel (objToChars fs ++ '}' :: rest) = some (fs, rest)) := by
  intro fuel
  induction fuel with
  | zero =>
    refine ⟨?_, ?_, ?_⟩
    · intro j rest _ hsz; have := jsize_pos j; omega
    · intro xs rest _ hsz; have := asize_pos xs; omega
    · intro fs rest _ hsz; have := osize_pos fs; omega
  | succ fuel ih =>
    obtain ⟨ihJ, ihA, ihO⟩ := ih
    refine ⟨?_, ?_, ?_⟩
    · intro j rest hrest hsz
      cases j with
      | null => rw [jsonToChars_null]; rfl
      | bool b =>
        cases b with
        | true => rw [jsonToChars_true]; rfl
        | false => rw [jsonToChars_false]; rfl
      | str s =>
        have hshape : jsonToChars (.str s) ++ rest =
            '"' :: (escapeChars s.data ++ '"' :: rest) := by
          rw [jsonToChars_str]; simp
        rw [hshape, parseJ_succ_cons, if_neg (by decide), if_neg (by decide),
          if_neg (by decide), if_pos rfl, parseStrBody_escape]
      | num k =>
        cases k with
        | ofNat n =>
          rw [jsonToChars_num, intToChars_ofNat]
          rcases hcs : natToChars n with _ | ⟨c, cs⟩
          · exact absurd hcs (natToChars_ne_nil n)
          · have hall := natToChars_digits n
            rw [hcs] at hall
            have hc := hall c (List.mem_cons_self c cs)
            obtain ⟨h1, h2, h3, h4, h5, h6, h7, _, _⟩ := isDigit_not_special c hc
            rw [List.cons_append, parseJ_succ_cons, if_neg h1, if_neg h2,
              if_neg h3, if_neg h4, if_neg h5, if_neg h6, if_neg h7]
            have hback : c :: (cs ++ rest) = natToChars n ++ rest := by
              rw [hcs, List.cons_append]
            rw [hback, parseNatNum_natToChars n rest hrest]
            rfl
        | negSucc m =>
          rw [jsonToChars_num, intToChars_negSucc, List.cons_append, parseJ_succ_cons,
            if_neg (by decide), if_neg (by decide), if_neg (by decide),
            if_neg (by decide), if_neg (by decide), if_neg (by decide), if_pos rfl,
            parseNatNum_natToChars (m + 1) rest hrest]
          have hneg : (-((m + 1 : Nat) : Int)) = Int.negSucc m := by
            rw [Int.negSucc_eq]; push_cast; ring
          have hgoal : (some (Json.num (-((m + 1 : Nat) : Int)), rest) :
              Option (Json × List Char)) = some (Json.num (Int.negSucc m), rest) := by
            rw [hneg]
          exact hgoal
      | arr xs =>
        cases xs with
        | nil =>
          have hshape : jsonToChars (.arr []) ++ rest = '[' :: ']' :: rest := by
            rw [jsonToChars_arr, arrToChars_nil]; rfl
          rw [hshape]; rfl
        | cons x xs2 =>
          obtain ⟨c, t, hhead, hcne⟩ := arrToChars_head x xs2
          have hshape : jsonToChars (.arr (x :: xs2)) ++ rest =
              '[' :: (arrToChars (x :: xs2) ++ ']' :: rest) := by
            rw [jsonToChars_arr]; simp
          rw [hshape, parseJ_succ_cons, if_neg (by decide), if_neg (by decide),
            if_neg (by decide), if_neg (by decide), if_pos rfl]
          have hcond : (arrToChars (x :: xs2) ++ ']' :: rest).head? ≠ some ']' := by
            rw [hhead, List.cons_append, List.head?_cons]
            simp [hcne]
          rw [if_neg hcond,
            ihA (x :: xs2) rest (by simp) (by rw [jsize_arr] at hsz; omega)]
      | obj fs =>
        cases fs with
        | nil =>
          have hshape : jsonToChars (.obj []) ++ rest = '{' :: '}' :: rest := by
            rw [jsonToChars_obj, objToChars_nil]; rfl
          rw [hshape]; rfl
        | cons f fs2 =>
          obtain ⟨t, hhead⟩ := objToChars_head f fs2
          have hshape : jsonToChars (.obj (f :: fs2)) ++ rest =
              '{' :: (objToChars (f :: fs2) ++ '}' :: rest) := by
            rw [jsonToChars_obj]; simp
          rw [hshape, parseJ_succ_cons, if_neg (by decide), if_neg (by decide),
            if_neg (by decide), if_neg (by decide), if_neg (by decide), if_pos rfl]
          have hcond : (objToChars (f :: fs2) ++ '}' :: rest).head? ≠ some '}' := by
            rw [hhead, List.cons_append, List.head?_cons]
            simp
          rw [if_neg hcond,
            ihO (f :: fs2) rest (by simp) (by rw [jsize_obj] at hsz; omega)]
    · intro xs rest hne hsz
      cases xs with
      | nil => exact absurd rfl hne
      | cons x xs2 =>
        rw [parseArrBody_succ]
        cases xs2 with
        | nil =>
          rw [arrToChars_one,
            ihJ x (']' :: rest) (headOk_rbracket rest)
              (by rw [asize_cons, asize_nil] at hsz; omega)]
          rfl
        | cons y ys =>
          have hshape : arrToChars (x :: y :: ys) ++ ']' :: rest =
              jsonToChars x ++ ',' :: (arrToChars (y :: ys) ++ ']' :: rest) := by
            rw [arrToChars_cons2]; simp
          have hx : jsize x ≤ fuel := by
            rw [asize_cons] at hsz
            have := asize_pos (y :: ys)
            omega
          have hys : asize (y :: ys) ≤ fuel := by
            rw [asize_cons] at hsz
            have := jsize_pos x
            omega
          rw [hshape, ihJ x (',' :: (arrToChars (y :: ys) ++ ']' :: rest))
            (headOk_comma _) hx]
          simp only [ihA (y :: ys) rest (by simp) hys]
    · intro fs rest hne hsz
      cases fs with
      | nil => exact absurd rfl hne
      | cons f fs2 =>
        rcases f with ⟨k, v⟩
        cases fs2 with
        | nil =>
          have hshape : objToChars [(k, v)] ++ '}' :: rest =
              '"' :: (escapeChars k.data ++ '"' ::
                (':' :: (jsonToChars v ++ '}' :: rest))) := by
            rw [objToChars_one, fieldToChars_eq]; simp
          have hv : jsize v ≤ fuel := by
            rw [osize_cons, osize_nil] at hsz; omega
          rw [hshape, parseObjBody_succ_quote,
            parseStrBody_escape k.data (':' :: (jsonToChars v ++ '}' :: rest))]
          simp only [ihJ v ('}' :: rest) (headOk_rbrace rest) hv]
        | cons f2 fs3 =>
          have hshape : objToChars ((k, v) :: f2 :: fs3) ++ '}' :: rest =
              '"' :: (escapeChars k.data ++ '"' ::
                (':' :: (jsonToChars v ++
                  ',' :: (objToChars (f2 :: fs3) ++ '}' :: rest)))) := by
            rw [objToChars_cons2, fieldToChars_eq]; simp
          have hv : jsize v ≤ fuel := by
            rw [osize_cons] at hsz
            have := osize_pos (f2 :: fs3)
            omega
          have hfs : osize (f2 :: fs3) ≤ fuel := by
            rw [osize_cons] at hsz
            have := jsize_pos v
            omega
          rw [hshape, parseObjBody_succ_quote,
            parseStrBody_escape k.data
              (':' :: (jsonToChars v ++ ',' :: (objToChars (f2 :: fs3) ++ '}' :: rest)))]
          simp only [ihJ v (',' :: (objToChars (f2 :: fs3) ++ '}' :: rest))
            (headOk_comma _) hv]
          simp only [ihO (f2 :: fs3) rest (by simp) hfs]

theorem sizes_le : ∀ n : Nat,
    (∀ j, jsize j ≤ n → jsize j ≤ 2 * (jsonToChars j).length) ∧
    (∀ xs, xs ≠ [] → asize xs ≤ n → asize xs ≤ 2 * (arrToChars xs).length + 2) ∧
    (∀ fs, fs ≠ [] → osize fs ≤ n → osize fs ≤ 2 * (objToChars fs).length + 2) := by
  intro n
  induction n with
  | zero =>
    refine ⟨?_, ?_, ?_⟩
    · intro j hsz; have := jsize_pos j; omega
    · intro xs hne hsz; have := asize_pos xs; omega
    · intro fs hne hsz; have := osize_pos fs; omega
  | succ n ih =>
    obtain ⟨ihJ, ihA, ihO⟩ := ih
    refine ⟨?_, ?_, ?_⟩
    · intro j hsz
      cases j with
      | null => rw [jsize_null, jsonToChars_null]; simp
      | bool b =>
        cases b with
        | true => rw [jsize_bool, jsonToChars_true]; simp
        | false => rw [jsize_bool, jsonToChars_false]; simp
      | num k =>
        have hlen : 1 ≤ (intToChars k).length := by
          cases k with
          | ofNat m =>
            rw [intToChars_ofNat]
            exact List.length_pos.mpr (natToChars_ne_nil m)
          | negSucc m => rw [intToChars_negSucc]; simp
        rw [jsize_num, jsonToChars_num]
        omega
      | str s =>
        rw [jsize_str, jsonToChars_str]
        simp
        omega
      | arr xs =>
        cases xs with
        | nil =>
          rw [jsize_arr, asize_nil, jsonToChars_arr, arrToChars_nil]
          simp
        | cons x xs2 =>
          rw [jsize_arr] at hsz ⊢
          have hA := ihA (x :: xs2) (by simp) (by omega)
          rw [jsonToChars_arr]
          simp only [List.length_cons, List.length_append, List.length_singleton]
          omega
      | obj fs =>
        cases fs with
        | nil =>
          rw [jsize_obj, osize_nil, jsonToChars_obj, objToChars_nil]
          simp
        | cons f fs2 =>
          rw [jsize_obj] at hsz ⊢
          have hO := ihO (f :: fs2) (by simp) (by omega)
          rw [jsonToChars_obj]
          simp only [List.length_cons, List.length_append, List.length_singleton]
          omega
    · intro xs hne hsz
      cases xs with
      | nil => exact absurd rfl hne
      | cons x xs2 =>
        cases xs2 with
        | nil =>
          rw [asize_cons, asize_nil] at hsz ⊢
          have hx := ihJ x (by have := jsize_pos x; omega)
          rw [arrToChars_one]
          omega
        | cons y ys =>
          rw [asize_cons] at hsz ⊢
          have h1 := asize_pos (y :: ys)
          have h2 := jsize_pos x
          have hx := ihJ x (by omega)
          have hys := ihA (y :: ys) (by simp) (by omega)
          rw [arrToChars_cons2]
          simp only [List.length_append, List.length_cons]
          omega
    · intro fs hne hsz
      cases fs with
      | nil => exact absurd rfl hne
      | cons f fs2 =>
        rcases f with ⟨k, v⟩
        cases fs2 with
        | nil =>
          rw [osize_cons, osize_nil] at hsz ⊢
          have hv := ihJ v (by have := jsize_pos v; omega)
          rw [objToChars_one, fieldToChars_eq]
          simp only [List.length_cons, List.length_append]
          omega
        | cons f2 fs3 =>
          rw [osize_cons] at hsz ⊢
          have h1 := osize_pos (f2 :: fs3)
          have h2 := jsize_pos v
          have hv := ihJ v (by omega)
          have hfs := ihO (f2 :: fs3) (by simp) (by omega)
          rw [objToChars_cons2, fieldToChars_eq]
          simp only [List.length_append, List.length_cons]
          omega

theorem jsize_le_fuel (j : Json) : jsize j ≤ 2 * (jsonToChars j).length :=
  (sizes_le (jsize j)).1 j le_rfl

/-- Serialize-then-parse is the identity on modelled JSON values: the JSON
text `Json.stringify j` is valid and decodes back to exactly `j`. -/
theorem Json.parse_stringify (j : Json) : Json.parse (Json.stringify j) = some j := by
  have h1 := (parse_roundtrip_fuel (2 * (jsonToChars j).length + 2)).1 j [] headOk_nil
    (by have := jsize_le_fuel j; omega)
  rw [List.append_nil] at h1
  show (match parseJ (2 * (jsonToChars j).length + 2) (jsonToChars j) with
    | some (j, []) => some j
    | _ => none) = some j
  rw [h1]

example : Json.parse "null" = some Json.null := by rfl
example : Json.parse "hello" = none := by rfl
example : Json.parse "[3,-12,true]" = some (Json.arr [Json.num 3, Json.num (-12), Json.bool true]) := by
  rfl

/-! ## The MCP tool server (`src/index.ts`)

The embedding below follows the handler code line by line. Network I/O
(`axios.get`) is represented by an oracle `upstream : HttpRequest → Except
UpstreamError Json`: axios resolves with the parsed JSON body on a 2xx
response and rejects (throws) on a non-2xx status or a network failure, which
is the `Except.error` case caught by each handler's `catch` branch. -/

/-- One content block of an MCP result (`{ type: 'text', text: ... }`). -/
structure ContentBlock where
  type : String
  text : String

/-- An MCP tool result: `{ content: [...] }`. -/
structure ContentEnvelope where
  content : List ContentBlock

/-- `const API_HOST = "https://api.coingecko.com/api/v3"`. -/
def API_HOST : String := "https://api.coingecko.com/api/v3"

/-- Process environment as read at start-up: `process.env.COINGECKO_API_KEY`
may be unset (`undefined`), hence `Option`. -/
structure Config where
  COINGECKO_API_KEY : Option String

/-- `CG_HEADER`: the fixed header set attached to every upstream call. The
API-key header carries the (possibly undefined) key from the environment. -/
def CG_HEADER (cfg : Config) : List (String × Option String) :=
  [("x-cg-demo-api-key", cfg.COINGECKO_API_KEY), ("accept", some "application/json")]

/-- An outgoing upstream HTTP GET as axios receives it: url, headers, and the
`params` object (a value of `none` models a JavaScript `undefined` entry). -/
structure HttpRequest where
  url : String
  headers : List (String × Option String)
  params : List (String × Option String)

/-- axios query-string serialization of a `params` object: entries whose value
is `undefined`/`null` are skipped; every other string value (including the
empty string) is kept. -/
def serializeParams (ps : List (String × Option String)) : List (String × String) :=
  ps.filterMap fun p =>
    match p.2 with
    | some v => some (p.1, v)
    | none => none

/-- Failure of an upstream call: axios rejects with the response status on a
non-2xx reply, or with a message only on a network-level failure. -/
inductive UpstreamError where
  | httpStatus : Nat → String → UpstreamError
  | network : String → UpstreamError

/-- The `error.message` a handler's catch branch sees
(`error instanceof Error ? error.message : String(error)`). -/
def UpstreamError.message : UpstreamError → String
  | .httpStatus _ m => m
  | .network m => m

/-- The transport/network environment of one tool invocation: what each
`axios.get` resolves or rejects with. -/
def Upstream := HttpRequest → Except UpstreamError Json

/-- Success path of every proxy tool: `JSON.stringify(response.data)` wrapped
as the single text content block. -/
def successEnvelope (data : Json) : ContentEnvelope :=
  ⟨[⟨"text", Json.stringify data⟩]⟩

/-- Catch path of every proxy tool: `JSON.stringify({ error: <fixed message> })`
wrapped as the single text content block. -/
def errorEnvelope (msg : String) : ContentEnvelope :=
  ⟨[⟨"text", Json.stringify (Json.obj [("error", Json.str msg)])⟩]⟩

/-- Everything one tool invocation produces: the upstream requests it issued,
the `logRequest`/`console.error` side channel, and the envelope handed back to
the MCP runtime. -/
structure ToolOutcome where
  requests : List HttpRequest
  log : List String
  envelope : ContentEnvelope

/-- The `hello` tool handler: always the fixed text block `hello` (not passed
through `JSON.stringify`). -/
def helloHandler : ContentEnvelope := ⟨[⟨"text", "hello"⟩]⟩

/-- `getSupportedCurrencies` upstream request:
GET `{API_HOST}/simple/supported_vs_currencies` with `CG_HEADER`, no params. -/
def getSupportedCurrenciesRequest (cfg : Config) : HttpRequest :=
  ⟨API_HOST ++ "/simple/supported_vs_currencies", CG_HEADER cfg, []⟩

/-- The `getSupportedCurrencies` handler body: try the upstream call, wrap
`response.data` on success; on any failure log the error detail and return the
fixed `{ error: "Failed to fetch supported currencies" }` payload. -/
def getSupportedCurrenciesHandler (cfg : Config) (upstream : Upstream) : ToolOutcome :=
  let req := getSupportedCurrenciesRequest cfg
  match upstream req with
  | .ok data =>
    ⟨[req], ["EXTERNAL_API_RESPONSE"], successEnvelope data⟩
  | .error e =>
    ⟨[req], ["EXTERNAL_API_ERROR " ++ e.message,
      "Error fetching supported currencies: " ++ e.message],
      errorEnvelope "Failed to fetch supported currencies"⟩

/-- Validated arguments of `getCoinPrice` after the zod schema: the three
optional strings, and `vs_currencies` with its `"usd"` default applied. -/
structure CoinPriceArgs where
  ids : Option String
  names : Option String
  symbols : Option String
  vs_currencies : String

/-- Raw (caller-supplied) arguments of `getCoinPrice`, before validation; a
missing property is `none`. -/
structure CoinPriceRaw where
  ids : Option Json
  names : Option Json
  symbols : Option Json
  vs_currencies : Option Json

/-- Protocol-level failure of a tool invocation, surfaced to the caller as a
JSON-RPC error instead of a result envelope. -/
inductive ProtocolError where
  | invalidArguments : String → ProtocolError

/-- `z.string().optional()`: absent is fine, a string passes through unchanged
(any string, including the empty one), any non-string is rejected. -/
def zodOptionalString (param : String) : Option Json → Except ProtocolError (Option String)
  | none => .ok none
  | some (Json.str s) => .ok (some s)
  | some _ => .error (.invalidArguments param)

/-- `z.string().default(d)`: absent becomes the default, a string passes
through unchanged, any non-string is rejected. -/
def zodStringDefault (param d : String) : Option Json → Except ProtocolError String
  | none => .ok d
  | some (Json.str s) => .ok s
  | some _ => .error (.invalidArguments param)

/-- The zod object schema of `getCoinPrice` applied to raw arguments. -/
def validateCoinPriceArgs (raw : CoinPriceRaw) : Except ProtocolError CoinPriceArgs := do
  let ids ← zodOptionalString "ids" raw.ids
  let names ← zodOptionalString "names" raw.names
  let symbols ← zodOptionalString "symbols" raw.symbols
  let vs ← zodStringDefault "vs_currencies" "usd" raw.vs_currencies
  return ⟨ids, names, symbols, vs⟩

/-- The `params` object the `getCoinPrice` handler builds, key order as in the
source; absent optional arguments stay `undefined`. -/
def coinPriceParams (a : CoinPriceArgs) : List (String × Option String) :=
  [("ids", a.ids), ("names", a.names), ("symbols", a.symbols),
    ("vs_currencies", some a.vs_currencies)]

/-- `getCoinPrice` upstream request: GET `{API_HOST}/simple/price` with
`CG_HEADER` and the params object. -/
def getCoinPriceRequest (cfg : Config) (a : CoinPriceArgs) : HttpRequest :=
  ⟨API_HOST ++ "/simple/price", CG_HEADER cfg, coinPriceParams a⟩

/-- The `getCoinPrice` handler body (after validation). -/
def getCoinPriceHandler (cfg : Config) (upstream : Upstream) (a : CoinPriceArgs) :
    ToolOutcome :=
  let req := getCoinPriceRequest cfg a
  match upstream req with
  | .ok data =>
    ⟨[req], ["EXTERNAL_API_RESPONSE"], successEnvelope data⟩
  | .error e =>
    ⟨[req], ["EXTERNAL_API_ERROR " ++ e.message,
      "Error fetching coin prices: " ++ e.message],
      errorEnvelope "Failed to fetch coin prices"⟩

/-- `z.enum(['bitcoin', 'ethereum'])`: the only two admissible values of
`coin_id`. -/
inductive CoinId where
  | bitcoin
  | ethereum

/-- The path segment each enum value contributes to the upstream URL. -/
def CoinId.toPath : CoinId → String
  | .bitcoin => "bitcoin"
  | .ethereum => "ethereum"

/-- `z.enum(['bitcoin', 'ethereum'])` applied to the raw `coin_id` argument:
only the exact strings `"bitcoin"` and `"ethereum"` validate; everything else
(a different string, a non-string, or a missing argument) is a protocol-level
validation error. -/
def zodEnumCoinId : Option Json → Except ProtocolError CoinId
  | some (Json.str s) =>
    if s = "bitcoin" then .ok .bitcoin
    else if s = "ethereum" then .ok .ethereum
    else .error (.invalidArguments "coin_id")
  | _ => .error (.invalidArguments "coin_id")

/-- `getPublicCompaniesHoldings` upstream request:
GET `{API_HOST}/companies/public_treasury/{coin_id}` with `CG_HEADER`. -/
def getPublicCompaniesHoldingsRequest (cfg : Config) (c : CoinId) : HttpRequest :=
  ⟨API_HOST ++ "/companies/public_treasury/" ++ c.toPath, CG_HEADER cfg, []⟩

/-- The `getPublicCompaniesHoldings` handler body (after validation). -/
def getPublicCompaniesHoldingsHandler (cfg : Config) (upstream : Upstream) (c : CoinId) :
    ToolOutcome :=
  let req := getPublicCompaniesHoldingsRequest cfg c
  match upstream req with
  | .ok data =>
    ⟨[req], ["EXTERNAL_API_RESPONSE"], successEnvelope data⟩
  | .error e =>
    ⟨[req], ["EXTERNAL_API_ERROR " ++ e.message,
      "Error fetching public companies holdings: " ++ e.message],
      errorEnvelope "Failed to fetch public companies holdings"⟩

/-- What an MCP `tools/call` for one tool produces: the issued upstream
requests, the log, and either an envelope or a protocol-level error. A
validation failure is raised by the SDK before the handler body runs, so its
request trace and log are empty. -/
structure CallResult where
  requests : List HttpRequest
  log : List String
  result : Except ProtocolError ContentEnvelope

/-- Lift a handler's outcome to a call result. -/
def ToolOutcome.toCall (o : ToolOutcome) : CallResult :=
  ⟨o.requests, o.log, .ok o.envelope⟩

/-- Invoking the `hello` tool. -/
def callHello : CallResult := ⟨[], [], .ok helloHandler⟩

/-- Invoking `getSupportedCurrencies` (no arguments to validate). -/
def callGetSupportedCurrencies (cfg : Config) (upstream : Upstream) : CallResult :=
  (getSupportedCurrenciesHandler cfg upstream).toCall

/-- Invoking `getCoinPrice` on raw arguments: zod validation first, the
handler body only on success. -/
def callGetCoinPrice (cfg : Config) (upstream : Upstream) (raw : CoinPriceRaw) :
    CallResult :=
  match validateCoinPriceArgs raw with
  | .error e => ⟨[], [], .error e⟩
  | .ok a => (getCoinPriceHandler cfg upstream a).toCall

/-- Invoking `getPublicCompaniesHoldings` on a raw `coin_id`: zod enum
validation first, the handler body only on success. -/
def callGetPublicCompaniesHoldings (cfg : Config) (upstream : Upstream)
    (rawCoinId : Option Json) : CallResult :=
  match zodEnumCoinId rawCoinId with
  | .error e => ⟨[], [], .error e⟩
  | .ok c => (getPublicCompaniesHoldingsHandler cfg upstream c).toCall

/-! ## Per-request sessions and teardown -/

/-- Names of the tools registered into every per-request server, in
registration order (`server.tool(...)` calls in the `/mcp` handler). -/
def registeredToolNames : List String :=
  ["hello", "getSupportedCurrencies", "getCoinPrice", "getPublicCompaniesHoldings"]

/-- Modelled from the spec: `McpServer.close()` and
`StreamableHTTPServerTransport.close()` are SDK code, not part of this
repository; §4.5 requires closing to be idempotent and to release the
resource. A resource records whether it is closed and how many times its
underlying state was actually released. -/
structure Resource where
  closed : Bool
  releases : Nat

/-- Modelled from the spec: closing an already-closed resource is a no-op;
closing an open one releases it once. -/
def Resource.close (r : Resource) : Resource :=
  if r.closed then r else ⟨true, r.releases + 1⟩

/-- A newly created server or transport: open, nothing released yet. -/
def Resource.fresh : Resource := ⟨false, 0⟩

/-- One per-request session: its own tool registry, server and transport.
Nothing in it is shared with any other session. -/
structure Session where
  registeredTools : List String
  server : Resource
  transport : Resource

/-- The `app.post('/mcp', ...)` prologue: a fresh `McpServer` with the four
tools registered, and a fresh `StreamableHTTPServerTransport` created with
`sessionIdGenerator: undefined`. -/
def mkSession : Session := ⟨registeredToolNames, Resource.fresh, Resource.fresh⟩

/-- The `res.on('close')` cleanup handler: `transport.close(); server.close()`. -/
def Session.onClose (s : Session) : Session :=
  { s with transport := s.transport.close, server := s.server.close }

/-- A new `/mcp` request appends its own fresh session to the set of live
sessions; existing sessions are not consulted or modified. -/
def handleMcpPost (w : List Session) : List Session := w ++ [mkSession]

/-- Apply an action (a tool call touching session state, or teardown) to the
`i`-th live session only. -/
def updateSession (f : Session → Session) : Nat → List Session → List Session
  | 0, [] => []
  | 0, s :: ss => f s :: ss
  | _ + 1, [] => []
  | i + 1, s :: ss => s :: updateSession f i ss

theorem updateSession_nil (f : Session → Session) (i : Nat) :
    updateSession f i [] = [] := by
  cases i with
  | zero => rw [updateSession]
  | succ i => rw [updateSession]

theorem updateSession_zero_cons (f : Session → Session) (s : Session)
    (ss : List Session) : updateSession f 0 (s :: ss) = f s :: ss := by
  rw [updateSession]

theorem updateSession_succ_cons (f : Session → Session) (i : Nat) (s : Session)
    (ss : List Session) :
    updateSession f (i + 1) (s :: ss) = s :: updateSession f i ss := by
  rw [updateSession]

theorem updateSession_get_ne (f : Session → Session) (i j : Nat) (w : List Session)
    (h : i ≠ j) : (updateSession f i w)[j]? = w[j]? := by
  induction w generalizing i j with
  | nil => rw [updateSession_nil]
  | cons s ss ih =>
    cases i with
    | zero =>
      cases j with
      | zero => exact absurd rfl h
      | succ j => rw [updateSession_zero_cons]; simp
    | succ i =>
      cases j with
      | zero => rw [updateSession_succ_cons]; simp
      | succ j =>
        rw [updateSession_succ_cons]
        simp only [List.getElem?_cons_succ]
        exact ih i j (by omega)

theorem Resource.close_idem (r : Resource) : r.close.close = r.close := by
  by_cases h : r.closed <;> simp [Resource.close, h]

theorem errorEnvelope_decodes (msg : String) :
    ∃ t, (errorEnvelope msg).content = [⟨"text", t⟩] ∧
      Json.parse t = some (Json.obj [("error", Json.str msg)]) :=
  ⟨_, rfl, Json.parse_stringify _⟩

/-! ## Claims -/

/-- C1: for each of the three proxy tools, when the upstream call fails (non-2xx
status or network failure, i.e. any `UpstreamError`), the handler returns the
normal success-shaped envelope whose single text block JSON-decodes to
`{error: m}` with that tool's fixed message, and the call result is a normal
`.ok` value, never a propagated exception. -/
theorem c1_upstream_failure_fixed_error_envelope (cfg : Config) (upstream : Upstream)
    (a : CoinPriceArgs) (c : CoinId) (e₁ e₂ e₃ : UpstreamError)
    (h1 : upstream (getSupportedCurrenciesRequest cfg) = .error e₁)
    (h2 : upstream (getCoinPriceRequest cfg a) = .error e₂)
    (h3 : upstream (getPublicCompaniesHoldingsRequest cfg c) = .error e₃) :
    (getSupportedCurrenciesHandler cfg upstream).envelope =
      errorEnvelope "Failed to fetch supported currencies" ∧
    (getCoinPriceHandler cfg upstream a).envelope =
      errorEnvelope "Failed to fetch coin prices" ∧
    (getPublicCompaniesHoldingsHandler cfg upstream c).envelope =
      errorEnvelope "Failed to fetch public companies holdings" ∧
    (getSupportedCurrenciesHandler cfg upstream).toCall.result =
      .ok (errorEnvelope "Failed to fetch supported currencies") ∧
    (getCoinPriceHandler cfg upstream a).toCall.result =
      .ok (errorEnvelope "Failed to fetch coin prices") ∧
    (getPublicCompaniesHoldingsHandler cfg upstream c).toCall.result =
      .ok (errorEnvelope "Failed to fetch public companies holdings") ∧
    (∀ msg, ∃ t, (errorEnvelope msg).content = [⟨"text", t⟩] ∧
      Json.parse t = some (Json.obj [("error", Json.str msg)])) := by
  refine ⟨?_, ?_, ?_, ?_, ?_, ?_, fun msg => errorEnvelope_decodes msg⟩ <;>
    simp [getSupportedCurrenciesHandler, getCoinPriceHandler,
      getPublicCompaniesHoldingsHandler, ToolOutcome.toCall, h1, h2, h3]

theorem c1_witness :
    (getSupportedCurrenciesHandler ⟨none⟩
        (fun _ => Except.error (UpstreamError.network "boom"))).envelope =
      errorEnvelope "Failed to fetch supported currencies" :=
  (c1_upstream_failure_fixed_error_envelope ⟨none⟩
    (fun _ => Except.error (UpstreamError.network "boom"))
    ⟨none, none, none, "usd"⟩ CoinId.bitcoin
    (.network "boom") (.network "boom") (.network "boom") rfl rfl rfl).1

/-- C2, counterexample: the claim includes the `hello` tool among those whose
text block is valid JSON, but the hello handler returns the literal text
`hello`, which `Json.parse` rejects (bare words are not JSON). -/
theorem c2_hello_text_not_json :
    helloHandler = ⟨[⟨"text", "hello"⟩]⟩ ∧ Json.parse "hello" = none :=
  ⟨rfl, rfl⟩

/-- C2, amended: every tool returns exactly one content block of type `text`;
for the three proxy tools (but not `hello`, whose text is the fixed literal
`hello`) the text is valid JSON for every upstream outcome. -/
theorem c2_single_text_block_json (cfg : Config) (upstream : Upstream)
    (a : CoinPriceArgs) (c : CoinId) :
    helloHandler.content = [⟨"text", "hello"⟩] ∧
    (∃ t, (getSupportedCurrenciesHandler cfg upstream).envelope.content =
      [⟨"text", t⟩] ∧ (Json.parse t).isSome = true) ∧
    (∃ t, (getCoinPriceHandler cfg upstream a).envelope.content =
      [⟨"text", t⟩] ∧ (Json.parse t).isSome = true) ∧
    (∃ t, (getPublicCompaniesHoldingsHandler cfg upstream c).envelope.content =
      [⟨"text", t⟩] ∧ (Json.parse t).isSome = true) := by
  refine ⟨rfl, ?_, ?_, ?_⟩
  · cases hu : upstream (getSupportedCurrenciesRequest cfg) with
    | ok data =>
      refine ⟨Json.stringify data, ?_, ?_⟩
      · simp [getSupportedCurrenciesHandler, hu, successEnvelope]
      · rw [Json.parse_stringify]; rfl
    | error e =>
      refine ⟨Json.stringify (Json.obj [("error",
        Json.str "Failed to fetch supported currencies")]), ?_, ?_⟩
      · simp [getSupportedCurrenciesHandler, hu, errorEnvelope]
      · rw [Json.parse_stringify]; rfl
  · cases hu : upstream (getCoinPriceRequest cfg a) with
    | ok data =>
      refine ⟨Json.stringify data, ?_, ?_⟩
      · simp [getCoinPriceHandler, hu, successEnvelope]
      · rw [Json.parse_stringify]; rfl
    | error e =>
      refine ⟨Json.stringify (Json.obj [("error",
        Json.str "Failed to fetch coin prices")]), ?_, ?_⟩
      · simp [getCoinPriceHandler, hu, errorEnvelope]
      · rw [Json.parse_stringify]; rfl
  · cases hu : upstream (getPublicCompaniesHoldingsRequest cfg c) with
    | ok data =>
      refine ⟨Json.stringify data, ?_, ?_⟩
      · simp [getPublicCompaniesHoldingsHandler, hu, successEnvelope]
      · rw [Json.parse_stringify]; rfl
    | error e =>
      refine ⟨Json.stringify (Json.obj [("error",
        Json.str "Failed to fetch public companies holdings")]), ?_, ?_⟩
      · simp [getPublicCompaniesHoldingsHandler, hu, errorEnvelope]
      · rw [Json.parse_stringify]; rfl

/-- C3: any `coin_id` value other than the strings `bitcoin` and `ethereum`
fails the `z.enum` validation: the call yields a protocol-level validation
error, the handler body is never entered, and no upstream request is issued
(the request trace is empty). -/
theorem c3_invalid_coin_id_rejected_before_gateway (cfg : Config) (upstream : Upstream)
    (v : Json) (hb : v ≠ Json.str "bitcoin") (he : v ≠ Json.str "ethereum") :
    callGetPublicCompaniesHoldings cfg upstream (some v) =
      ⟨[], [], .error (.invalidArguments "coin_id")⟩ := by
  cases v with
  | str s =>
    have hs1 : s ≠ "bitcoin" := fun h => hb (by rw [h])
    have hs2 : s ≠ "ethereum" := fun h => he (by rw [h])
    simp [callGetPublicCompaniesHoldings, zodEnumCoinId, hs1, hs2]
  | null => rfl
  | bool b => rfl
  | num k => rfl
  | arr xs => rfl
  | obj fs => rfl

theorem c3_witness :
    callGetPublicCompaniesHoldings ⟨none⟩
        (fun _ => Except.error (UpstreamError.network "down"))
        (some (Json.str "dogecoin")) =
      ⟨[], [], .error (.invalidArguments "coin_id")⟩ := by
  have h1 : Json.str "dogecoin" ≠ Json.str "bitcoin" := fun h => by
    injection h with h2
    exact absurd h2 (by decide)
  have h2 : Json.str "dogecoin" ≠ Json.str "ethereum" := fun h => by
    injection h with h3
    exact absurd h3 (by decide)
  exact c3_invalid_coin_id_rejected_before_gateway ⟨none⟩
    (fun _ => Except.error (UpstreamError.network "down")) (Json.str "dogecoin") h1 h2

/-- C4: calling `getCoinPrice` with all four arguments omitted applies the
`usd` default, issues exactly one request to `{API_HOST}/simple/price`, and
the serialized query carries exactly the single parameter
`vs_currencies=usd` — `ids`, `names`, `symbols` are absent entirely. -/
theorem c4_all_omitted_default_usd_only_param (cfg : Config) (upstream : Upstream) :
    (callGetCoinPrice cfg upstream ⟨none, none, none, none⟩).requests =
      [getCoinPriceRequest cfg ⟨none, none, none, "usd"⟩] ∧
    serializeParams (getCoinPriceRequest cfg ⟨none, none, none, "usd"⟩).params =
      [("vs_currencies", "usd")] := by
  have hv : validateCoinPriceArgs ⟨none, none, none, none⟩ =
      .ok ⟨none, none, none, "usd"⟩ := rfl
  refine ⟨?_, rfl⟩
  cases hu : upstream (getCoinPriceRequest cfg ⟨none, none, none, "usd"⟩) with
  | ok data =>
    simp [callGetCoinPrice, hv, getCoinPriceHandler, ToolOutcome.toCall, hu]
  | error e =>
    simp [callGetCoinPrice, hv, getCoinPriceHandler, ToolOutcome.toCall, hu]

/-- C5: the success envelope built from any upstream JSON payload has a single
text block holding exactly `Json.stringify payload`, and decoding that text
yields the original payload unchanged — a verbatim round-trip. -/
theorem c5_success_envelope_roundtrip (payload : Json) :
    successEnvelope payload = ⟨[⟨"text", Json.stringify payload⟩]⟩ ∧
    Json.parse (Json.stringify payload) = some payload :=
  ⟨rfl, Json.parse_stringify payload⟩

/-- C6: for any two runs of the same tool whose upstream calls fail with
different underlying errors, the caller-visible envelope is identical (the
fixed error payload), independent of the error's content; the error's
technical detail (its message) appears only in the log side channel. -/
theorem c6_failure_envelope_error_independent (cfg : Config) (up₁ up₂ : Upstream)
    (a : CoinPriceArgs) (c : CoinId) (e₁ e₂ : UpstreamError)
    (h1 : up₁ (getCoinPriceRequest cfg a) = .error e₁)
    (h2 : up₂ (getCoinPriceRequest cfg a) = .error e₂)
    (h3 : up₁ (getPublicCompaniesHoldingsRequest cfg c) = .error e₁)
    (h4 : up₂ (getPublicCompaniesHoldingsRequest cfg c) = .error e₂)
    (h5 : up₁ (getSupportedCurrenciesRequest cfg) = .error e₁)
    (h6 : up₂ (getSupportedCurrenciesRequest cfg) = .error e₂) :
    (getCoinPriceHandler cfg up₁ a).envelope = (getCoinPriceHandler cfg up₂ a).envelope ∧
    (getPublicCompaniesHoldingsHandler cfg up₁ c).envelope =
      (getPublicCompaniesHoldingsHandler cfg up₂ c).envelope ∧
    (getSupportedCurrenciesHandler cfg up₁).envelope =
      (getSupportedCurrenciesHandler cfg up₂).envelope ∧
    (getCoinPriceHandler cfg up₁ a).log =
      ["EXTERNAL_API_ERROR " ++ e₁.message,
        "Error fetching coin prices: " ++ e₁.message] ∧
    (getCoinPriceHandler cfg up₁ a).envelope = errorEnvelope "Failed to fetch coin prices" := by
  refine ⟨?_, ?_, ?_, ?_, ?_⟩ <;>
    simp [getCoinPriceHandler, getPublicCompaniesHoldingsHandler,
      getSupportedCurrenciesHandler, h1, h2, h3, h4, h5, h6]

theorem c6_witness :
    (getCoinPriceHandler ⟨none⟩
        (fun _ => Except.error (UpstreamError.network "ECONNREFUSED"))
        ⟨none, none, none, "usd"⟩).envelope =
      (getCoinPriceHandler ⟨none⟩
        (fun _ => Except.error (UpstreamError.httpStatus 500
          "Request failed with status code 500"))
        ⟨none, none, none, "usd"⟩).envelope :=
  (c6_failure_envelope_error_independent ⟨none⟩
    (fun _ => Except.error (UpstreamError.network "ECONNREFUSED"))
    (fun _ => Except.error (UpstreamError.httpStatus 500
      "Request failed with status code 500"))
    ⟨none, none, none, "usd"⟩ CoinId.bitcoin
    (.network "ECONNREFUSED") (.httpStatus 500 "Request failed with status code 500")
    rfl rfl rfl rfl rfl rfl).1

/-- C7: the `hello` tool always returns the envelope with the single content
block `{type: "text", text: "hello"}`, and invoking it is a normal `.ok`
result. -/
theorem c7_hello_fixed_envelope :
    helloHandler = ⟨[⟨"text", "hello"⟩]⟩ ∧ callHello.result = .ok helloHandler :=
  ⟨rfl, rfl⟩

/-- C8: sessions are isolated. Acting on one live session (a tool call or
teardown in request `i`) leaves every other session unchanged; a new `/mcp`
request gets a session built from scratch — its registry is the fixed tool
list, independent of any existing session — and does not modify the existing
ones. -/
theorem c8_session_isolation (w : List Session) (i j : Nat) (f : Session → Session)
    (hij : i ≠ j) :
    (updateSession f i w)[j]? = w[j]? ∧
    (handleMcpPost w)[w.length]? = some mkSession ∧
    (∀ k, k < w.length → (handleMcpPost w)[k]? = w[k]?) ∧
    mkSession.registeredTools = registeredToolNames := by
  refine ⟨updateSession_get_ne f i j w hij, ?_, ?_, rfl⟩
  · simp [handleMcpPost]
  · intro k hk
    simp [handleMcpPost, List.getElem?_append, hk]

theorem c8_witness :
    (updateSession Session.onClose 0 [mkSession, mkSession])[1]? =
      [mkSession, mkSession][1]? :=
  (c8_session_isolation [mkSession, mkSession] 0 1 Session.onClose (by decide)).1

/-- C9: the `res.on('close')` teardown handler closes the transport and the
server; starting from the freshly created per-request resources it releases
each exactly once, and running it again (the connection closing after the
exchange already completed, or a second close event) is a no-op — teardown is
idempotent from any state, so it is safe even if the exchange never
completed. -/
theorem c9_teardown_idempotent_single_release (s : Session)
    (hT : s.transport = Resource.fresh) (hS : s.server = Resource.fresh) :
    s.onClose.transport.releases = 1 ∧ s.onClose.server.releases = 1 ∧
    s.onClose.transport.closed = true ∧ s.onClose.server.closed = true ∧
    (∀ t : Session, t.onClose.onClose = t.onClose) := by
  refine ⟨?_, ?_, ?_, ?_, ?_⟩
  · simp [Session.onClose, hT, Resource.close, Resource.fresh]
  · simp [Session.onClose, hS, Resource.close, Resource.fresh]
  · simp [Session.onClose, hT, Resource.close, Resource.fresh]
  · simp [Session.onClose, hS, Resource.close, Resource.fresh]
  · intro t
    simp [Session.onClose, Resource.close_idem]

theorem c9_witness : mkSession.onClose.transport.releases = 1 :=
  (c9_teardown_idempotent_single_release mkSession rfl rfl).1

/-- C10 (implicit behaviour): an empty string supplied for `ids` passes the
`z.string().optional()` validation (as it does for `names`/`symbols`) and is
forwarded to the outgoing query as an empty-valued parameter — only absent
arguments are dropped; and `vs_currencies` accepts any string whatsoever with
no membership check, forwarding it verbatim. -/
theorem c10_empty_string_kept_any_vs_currency (cfg : Config) (upstream : Upstream)
    (s : String) :
    validateCoinPriceArgs ⟨some (Json.str ""), some (Json.str ""), some (Json.str ""),
      some (Json.str s)⟩ = .ok ⟨some "", some "", some "", s⟩ ∧
    (callGetCoinPrice cfg upstream
      ⟨some (Json.str ""), none, none, some (Json.str s)⟩).requests =
      [getCoinPriceRequest cfg ⟨some "", none, none, s⟩] ∧
    serializeParams (getCoinPriceRequest cfg ⟨some "", none, none, s⟩).params =
      [("ids", ""), ("vs_currencies", s)] := by
  have hv : validateCoinPriceArgs ⟨some (Json.str ""), none, none, some (Json.str s)⟩ =
      .ok ⟨some "", none, none, s⟩ := rfl
  refine ⟨rfl, ?_, rfl⟩
  cases hu : upstream (getCoinPriceRequest cfg ⟨some "", none, none, s⟩) with
  | ok data =>
    simp [callGetCoinPrice, hv, getCoinPriceHandler, ToolOutcome.toCall, hu]
  | error e =>
    simp [callGetCoinPrice, hv, getCoinPriceHandler, ToolOutcome.toCall, hu]
